import Mathlib

/-!
Verification of the value-marshaling core of `src/mruby_ffi.rs` (mrusty):
the tagged `MrValue` union, its outbound constructors and inbound fallible
converters, and the native-object ownership bridge.

The Rust functions of `src/mruby_ffi.rs` are translated definition by
definition.  The interpreter primitives (`mrb_*`) and `MrubyError` are only
declared there (`extern "C"` / `use super::MrubyError`); their behaviour is
modelled from the specification's contracts, and each such definition carries a
doc comment starting with `Modelled from the spec:`.  Machine integers are
embedded as `Nat`/`Int` with explicit two's-complement truncation; heap handles
and raw pointers are `Nat` indices into an explicit interpreter state.
-/

set_option maxHeartbeats 1000000
set_option linter.unusedVariables false

/-- Variant discriminant of an interpreter value, mirroring the `MrType` enum of
`src/mruby_ffi.rs` constructor for constructor. -/
inductive MrType where
  | MRB_TT_FALSE
  | MRB_TT_TRUE
  | MRB_TT_FLOAT
  | MRB_TT_FIXNUM
  | MRB_TT_SYMBOL
  | MRB_TT_UNDEF
  | MRB_TT_CPTR
  | MRB_TT_FREE
  | MRB_TT_OBJECT
  | MRB_TT_CLASS
  | MRB_TT_MODULE
  | MRB_TT_ICLASS
  | MRB_TT_SCLASS
  | MRB_TT_PROC
  | MRB_TT_ARRAY
  | MRB_TT_HASH
  | MRB_TT_STRING
  | MRB_TT_RANGE
  | MRB_TT_EXCEPTION
  | MRB_TT_ENV
  | MRB_TT_DATA
  | MRB_TT_FIBER
  | MRB_TT_ISTRUCT
  | MRB_TT_BREAK
  | MRB_TT_MAXDEFINE
  deriving DecidableEq

/-- Modelled from the spec: `MrubyError` is imported by `src/mruby_ffi.rs` from a
module outside the given sources (`use super::MrubyError`).  Per the spec there
is a single error kind relevant to this core: a Cast failure carrying the name
of the expected variant. -/
inductive MrubyError where
  | Cast (expected : String)
  deriving DecidableEq

/-- Shallow model of the opaque 16-byte `MrValue` union: one constructor per
variant, carrying exactly the payload the interpreter primitives read back out
of it.  Heap handles (strings, arrays, Data cells) and raw pointers are `Nat`
indices into the `Interp` state; boxed floats are carried by their 64-bit
pattern (`Nat`); fixnums carry their `MrInt = i64` payload (`Int`); symbols
carry their interned id.  The spec's invariant that the discriminant always
agrees with the stored bit pattern is enforced by construction, as its design
notes direct. -/
inductive MrValue' where
  | nilV
  | falseV
  | trueV
  | floatV (bits : Nat)
  | fixnumV (n : Int)
  | symbolV (id : Nat)
  | cptrV (addr : Nat)
  | objectV
  | classV (h : Nat)
  | moduleV (h : Nat)
  | iclassV
  | sclassV
  | procV
  | arrayV (idx : Nat)
  | hashV
  | stringV (idx : Nat)
  | rangeV
  | excV
  | envV
  | dataV (ptr : Nat)
  | fiberV
  | istructV
  | breakV
  | freeV
  deriving DecidableEq

/-- Modelled from the spec: the discriminant-reading primitive `mrb_ext_type` is
declared but not defined under the given sources.  Every variant maps to its
`MrType` tag.  The spec lists Nil as a variant of its own, distinct from False
and True and from every variant a converter expects (`to_bool` "succeeds only
for True/False variants", `to_i32(nil())` fails with a Cast error), so `nilV`
is mapped to the one source tag the spec's variant list associates with no
converter, `MRB_TT_UNDEF`. -/
def mrb_ext_type : MrValue' → MrType
  | .nilV => .MRB_TT_UNDEF
  | .falseV => .MRB_TT_FALSE
  | .trueV => .MRB_TT_TRUE
  | .floatV _ => .MRB_TT_FLOAT
  | .fixnumV _ => .MRB_TT_FIXNUM
  | .symbolV _ => .MRB_TT_SYMBOL
  | .cptrV _ => .MRB_TT_CPTR
  | .objectV => .MRB_TT_OBJECT
  | .classV _ => .MRB_TT_CLASS
  | .moduleV _ => .MRB_TT_MODULE
  | .iclassV => .MRB_TT_ICLASS
  | .sclassV => .MRB_TT_SCLASS
  | .procV => .MRB_TT_PROC
  | .arrayV _ => .MRB_TT_ARRAY
  | .hashV => .MRB_TT_HASH
  | .stringV _ => .MRB_TT_STRING
  | .rangeV => .MRB_TT_RANGE
  | .excV => .MRB_TT_EXCEPTION
  | .envV => .MRB_TT_ENV
  | .dataV _ => .MRB_TT_DATA
  | .fiberV => .MRB_TT_FIBER
  | .istructV => .MRB_TT_ISTRUCT
  | .breakV => .MRB_TT_BREAK
  | .freeV => .MRB_TT_FREE

/-- `MrValue::typ` from the source: reads the discriminant via `mrb_ext_type`. -/
def MrValue'.typ (v : MrValue') : MrType := mrb_ext_type v

/-- Modelled from the spec: the interpreter instance (`*const MrState`) as far
as the claims observe it — string objects and the symbol table as byte lists,
array objects as value lists, and the host-side reference-counted cells behind
Data values (`some (count, value)` while live, `none` once the storage has been
freed), together with a counter of how many times a cell's storage was freed. -/
structure Interp (α : Type) where
  strings : List (List Nat)
  symbols : List (List Nat)
  arrays : List (List MrValue')
  cells : List (Option (Nat × α))
  frees : Nat
  deriving DecidableEq

/-- A concrete empty interpreter instance over host type `Nat`, used for the
closed counterexample and witness statements. -/
def interpNat0 : Interp Nat := ⟨[], [], [], [], 0⟩

/-! ### UTF-8, modelling Rust `&str` byte views and `CStr::to_str` validation -/

/-- UTF-8 encoding of one Unicode scalar: the byte sequence a Rust `&str`
exposes through `as_ptr()`/`len()` for this character. -/
def utf8EncodeChar (c : Char) : List Nat :=
  let v := c.toNat
  if v < 128 then [v]
  else if v < 2048 then [192 + v / 64, 128 + v % 64]
  else if v < 65536 then [224 + v / 4096, 128 + v / 64 % 64, 128 + v % 64]
  else [240 + v / 262144, 128 + v / 4096 % 64, 128 + v / 64 % 64, 128 + v % 64]

/-- UTF-8 encoding of a Rust string, character by character. -/
def utf8Encode (s : List Char) : List Nat := (s.map utf8EncodeChar).flatten

/-- Decode one UTF-8 scalar from the front of a byte list, returning the
character and the remaining bytes, or `none` on invalid UTF-8 (stray
continuation byte, overlong form, surrogate, out-of-range scalar, truncated
sequence) — the validation `CStr::to_str` performs. -/
def utf8DecodeChar : List Nat → Option (Char × List Nat)
  | [] => none
  | b0 :: t =>
    if b0 < 128 then some (Char.ofNat b0, t)
    else if b0 < 194 then none
    else if b0 < 224 then
      match t with
      | b1 :: t1 =>
        if 128 ≤ b1 ∧ b1 < 192 then
          some (Char.ofNat ((b0 - 192) * 64 + (b1 - 128)), t1)
        else none
      | [] => none
    else if b0 < 240 then
      match t with
      | b1 :: b2 :: t2 =>
        if (128 ≤ b1 ∧ b1 < 192) ∧ (128 ≤ b2 ∧ b2 < 192) then
          let v := (b0 - 224) * 4096 + (b1 - 128) * 64 + (b2 - 128)
          if 2048 ≤ v ∧ (v < 55296 ∨ 57344 ≤ v) then some (Char.ofNat v, t2)
          else none
        else none
      | _ => none
    else if b0 < 245 then
      match t with
      | b1 :: b2 :: b3 :: t3 =>
        if (128 ≤ b1 ∧ b1 < 192) ∧ (128 ≤ b2 ∧ b2 < 192) ∧ (128 ≤ b3 ∧ b3 < 192) then
          let v := (b0 - 240) * 262144 + (b1 - 128) * 4096 + (b2 - 128) * 64 + (b3 - 128)
          if 65536 ≤ v ∧ v < 1114112 then some (Char.ofNat v, t3)
          else none
        else none
      | _ => none
    else none

/-- Decode a whole byte list as UTF-8 (fuelled by the list length; one scalar
consumes at least one byte, so the fuel suffices). -/
def utf8DecodeAux : Nat → List Nat → Option (List Char)
  | _, [] => some []
  | 0, _ :: _ => none
  | fuel + 1, b :: t =>
    match utf8DecodeChar (b :: t) with
    | some p => (utf8DecodeAux fuel p.2).map (fun s => p.1 :: s)
    | none => none

/-- Decode a byte list as UTF-8, `none` on invalid input — the model of
`CStr::to_str` succeeding or failing. -/
def utf8Decode (l : List Nat) : Option (List Char) := utf8DecodeAux l.length l

/-! ### Interpreter primitives (spec-modelled) and source constructors -/

/-- Modelled from the spec: `mrb_ext_nil` — the Nil value. -/
def mrb_ext_nil : MrValue' := .nilV

/-- Modelled from the spec: `mrb_ext_false`. -/
def mrb_ext_false : MrValue' := .falseV

/-- Modelled from the spec: `mrb_ext_true`. -/
def mrb_ext_true : MrValue' := .trueV

/-- Modelled from the spec: `mrb_ext_cint_to_fixnum` stores the `MrInt = i64`
payload in a Fixnum value ("pure encodings, no interpreter allocation"). -/
def mrb_ext_cint_to_fixnum (n : Int) : MrValue' := .fixnumV n

/-- Modelled from the spec: read the fixnum payload of a value ("read fixnum
... payload of a value"). -/
def mrb_ext_fixnum_to_cint : MrValue' → Int
  | .fixnumV n => n
  | _ => 0

/-- Modelled from the spec: `mrb_ext_cdouble_to_float` boxes a float on the
interpreter side; since `mrb_ext_float_to_cdouble` takes only the value, the
64-bit pattern is carried by the value itself. -/
def mrb_ext_cdouble_to_float {α : Type} (m : Interp α) (bits : Nat) : Interp α × MrValue' :=
  (m, .floatV bits)

/-- Modelled from the spec: read the float payload of a value. -/
def mrb_ext_float_to_cdouble : MrValue' → Nat
  | .floatV b => b
  | _ => 0

/-- Modelled from the spec: `mrb_str_new` copies the byte buffer in full into a
newly allocated interpreter-managed string object ("the interpreter copies in
full"). -/
def mrb_str_new {α : Type} (m : Interp α) (bytes : List Nat) : Interp α × MrValue' :=
  ({ m with strings := m.strings ++ [bytes] }, .stringV m.strings.length)

/-- Linear search of the symbol table, the interning lookup `mrb_ext_sym_new`
relies on. -/
def symLookup : List (List Nat) → List Nat → Option Nat
  | [], _ => none
  | x :: xs, b => if x = b then some 0 else (symLookup xs b).map (· + 1)

/-- Modelled from the spec: `mrb_ext_sym_new` interns — repeated calls with
equal text yield the same stable canonical id, fresh text gets a new id. -/
def mrb_ext_sym_new {α : Type} (m : Interp α) (bytes : List Nat) : Interp α × MrValue' :=
  match symLookup m.symbols bytes with
  | some i => (m, .symbolV i)
  | none => ({ m with symbols := m.symbols ++ [bytes] }, .symbolV m.symbols.length)

/-- Modelled from the spec: `mrb_str_to_cstr` hands the string contents back as
a NUL-terminated byte sequence, so the C-string view stops at the first NUL
byte of the stored contents. -/
def mrb_str_to_cstr {α : Type} (m : Interp α) (v : MrValue') : List Nat :=
  match v with
  | .stringV idx => (m.strings.getD idx []).takeWhile (fun b => b != 0)
  | _ => []

/-- Modelled from the spec: `mrb_ext_sym2name` returns the interned name as a
NUL-terminated byte sequence (symbol-to-name lookup). -/
def mrb_ext_sym2name {α : Type} (m : Interp α) (v : MrValue') : List Nat :=
  match v with
  | .symbolV id => (m.symbols.getD id []).takeWhile (fun b => b != 0)
  | _ => []

/-- Modelled from the spec: `mrb_ary_new_capa` allocates a fresh interpreter
array object (capacity is not observable, the new array holds no elements
yet). -/
def mrb_ary_new_capa {α : Type} (m : Interp α) (size : Int) : Interp α × MrValue' :=
  ({ m with arrays := m.arrays ++ [[]] }, .arrayV m.arrays.length)

/-- Content update of one array object: in-range indices are replaced,
out-of-range indices extend the array, padding the gap with nil — the
interpreter's set-by-index convention the spec's array constructor relies on
("allocates a fixed-capacity interpreter array equal to the sequence length,
then sets each slot by index"). -/
def arySetList (l : List MrValue') (i : Nat) (v : MrValue') : List MrValue' :=
  if i < l.length then l.set i v
  else l ++ List.replicate (i - l.length) .nilV ++ [v]

/-- Modelled from the spec: `mrb_ary_set` sets one array element by index. -/
def mrb_ary_set {α : Type} (m : Interp α) (ary : MrValue') (i : Int) (v : MrValue') : Interp α :=
  match ary with
  | .arrayV idx => { m with arrays := m.arrays.set idx (arySetList (m.arrays.getD idx []) i.toNat v) }
  | _ => m

/-- Modelled from the spec: `mrb_ext_ary_len` queries the current length of an
array object. -/
def mrb_ext_ary_len {α : Type} (m : Interp α) (v : MrValue') : Int :=
  match v with
  | .arrayV idx => ((m.arrays.getD idx []).length : Int)
  | _ => 0

/-- Modelled from the spec: `mrb_ary_ref` reads one array element by index (out
of range reads yield nil, the interpreter convention). -/
def mrb_ary_ref {α : Type} (m : Interp α) (v : MrValue') (i : Int) : MrValue' :=
  match v with
  | .arrayV idx => (m.arrays.getD idx []).getD i.toNat .nilV
  | _ => .nilV

/-- Modelled from the Rust `Rc` semantics the source relies on:
`Rc::new(RefCell::new(obj))` heap-allocates a shared cell with reference count
one, and `mem::transmute::<_, *const u8>(rc)` turns it into a raw handle
without running the destructor, so the count stays one.  Returns the new state
and the raw handle (the cell's address). -/
def rcNewPtr {α : Type} (m : Interp α) (x : α) : Interp α × Nat :=
  ({ m with cells := m.cells ++ [some (1, x)] }, m.cells.length)

/-- Modelled from the spec: `mrb_data_object_alloc` stores the raw handle
inside a newly allocated interpreter Data object; the Data object is identified
with the handle it stores (its class and descriptor affect no claim, and the
descriptor pairing is fixed per host type by construction-site discipline). -/
def mrb_data_object_alloc {α : Type} (m : Interp α) (ptr : Nat) : Interp α × Nat :=
  (m, ptr)

/-- Modelled from the spec: `mrb_ext_data_value` wraps a Data object as a
Data-variant value. -/
def mrb_ext_data_value (data : Nat) : MrValue' := .dataV data

/-- Modelled from the spec: `mrb_data_get_ptr` reads the raw handle stored in a
Data value. -/
def mrb_data_get_ptr {α : Type} (m : Interp α) (v : MrValue') : Nat :=
  match v with
  | .dataV ptr => ptr
  | _ => 0

/-- Modelled from the Rust `Rc` semantics: `rc.clone()` increments the shared
cell's reference count and yields a new owning handle to the same storage. -/
def rcClone {α : Type} (m : Interp α) (ptr : Nat) : Interp α :=
  { m with cells := m.cells.set ptr ((m.cells.getD ptr none).map (fun p => (p.1 + 1, p.2))) }

/-- Modelled from the Rust `Rc` semantics: dropping one owning handle
decrements the count; when the last count drops the storage is freed (the cell
becomes `none`) and the free counter records it. -/
def rcDrop {α : Type} (m : Interp α) (ptr : Nat) : Interp α :=
  match m.cells.getD ptr none with
  | some p =>
    if p.1 ≤ 1 then { m with cells := m.cells.set ptr none, frees := m.frees + 1 }
    else { m with cells := m.cells.set ptr (some (p.1 - 1, p.2)) }
  | none => m

/-- Modelled from the spec: the registered deallocation callback reconstructs
the reference-counted handle from the stored pointer and lets it drop,
releasing exactly one count. -/
def mrDfree {α : Type} (m : Interp α) (ptr : Nat) : Interp α := rcDrop m ptr

/-- `MrValue::nil` from the source. -/
def MrValue'.nil : MrValue' := mrb_ext_nil

/-- `MrValue::bool` from the source. -/
def MrValue'.bool (value : Bool) : MrValue' :=
  if value then mrb_ext_true else mrb_ext_false

/-- `MrValue::fixnum` from the source.  The Rust argument is an `i32`;
`value as MrInt` sign-extends it to `i64`, which preserves the represented
integer, so the embedding passes the integer through (the `i32` range is a
hypothesis where a claim needs it). -/
def MrValue'.fixnum (value : Int) : MrValue' := mrb_ext_cint_to_fixnum value

/-- `MrValue::float` from the source (`value as MrFloat` is the identity on
`f64`; the value is carried as its 64-bit pattern). -/
def MrValue'.float {α : Type} (m : Interp α) (value : Nat) : Interp α × MrValue' :=
  mrb_ext_cdouble_to_float m value

/-- `MrValue::string` from the source: hands the string's UTF-8 bytes and byte
length to `mrb_str_new`. -/
def MrValue'.string {α : Type} (m : Interp α) (value : List Char) : Interp α × MrValue' :=
  mrb_str_new m (utf8Encode value)

/-- `MrValue::symbol` from the source: hands the string's UTF-8 bytes and byte
length to `mrb_ext_sym_new`. -/
def MrValue'.symbol {α : Type} (m : Interp α) (value : List Char) : Interp α × MrValue' :=
  mrb_ext_sym_new m (utf8Encode value)

/-- `MrValue::obj` from the source: wrap the payload in `Rc<RefCell<_>>`,
transmute it to a raw pointer, allocate an interpreter Data object around that
pointer and wrap it as a value. -/
def MrValue'.obj {α : Type} (m : Interp α) (x : α) : Interp α × MrValue' :=
  let p := rcNewPtr m x
  let q := mrb_data_object_alloc p.1 p.2
  (q.1, mrb_ext_data_value q.2)

/-- `MrValue::array` from the source: `mrb_ary_new_capa` with the sequence
length, then `mrb_ary_set` for each element in input order. -/
def MrValue'.array {α : Type} (m : Interp α) (value : List MrValue') : Interp α × MrValue' :=
  let p := mrb_ary_new_capa m (value.length : Int)
  (value.enum.foldl (fun acc q => mrb_ary_set acc p.2 (q.1 : Int) q.2) p.1, p.2)

/-- `MrValue::ptr` from the source. -/
def mrb_ext_set_ptr {α : Type} (m : Interp α) (p : Nat) : Interp α × MrValue' :=
  (m, .cptrV p)

/-- Modelled from the spec: `mrb_ext_get_ptr` reads the wrapped raw address. -/
def mrb_ext_get_ptr : MrValue' → Nat
  | .cptrV a => a
  | _ => 0

/-- `MrValue::ptr` from the source: wraps a raw address as an opaque value. -/
def MrValue'.ptr {α : Type} (m : Interp α) (value : Nat) : Interp α × MrValue' :=
  mrb_ext_set_ptr m value

/-- Modelled from the spec: `mrb_ext_class_ptr` reads the class/module handle
out of a value. -/
def mrb_ext_class_ptr : MrValue' → Nat
  | .classV h => h
  | .moduleV h => h
  | _ => 0

/-! ### Inbound converters, translated from the source -/

/-- `MrValue::to_bool` from the source. -/
def MrValue'.to_bool (v : MrValue') : Except MrubyError Bool :=
  match v.typ with
  | .MRB_TT_FALSE => .ok false
  | .MRB_TT_TRUE => .ok true
  | _ => .error (.Cast "TrueClass or FalseClass")

/-- Rust `as i32` on an `i64` value: keep the low 32 bits and reinterpret them
as a signed two's-complement 32-bit integer. -/
def i64_as_i32 (n : Int) : Int :=
  if n % 4294967296 < 2147483648 then n % 4294967296 else n % 4294967296 - 4294967296

/-- `MrValue::to_i32` from the source: on Fixnum, the `i64` payload narrowed by
`as i32`. -/
def MrValue'.to_i32 (v : MrValue') : Except MrubyError Int :=
  match v.typ with
  | .MRB_TT_FIXNUM => .ok (i64_as_i32 (mrb_ext_fixnum_to_cint v))
  | _ => .error (.Cast "Fixnum")

/-- `MrValue::to_f64` from the source (`as f64` is the identity). -/
def MrValue'.to_f64 (v : MrValue') : Except MrubyError Nat :=
  match v.typ with
  | .MRB_TT_FLOAT => .ok (mrb_ext_float_to_cdouble v)
  | _ => .error (.Cast "Float")

/-- `MrValue::to_str` from the source.  `CStr::from_ptr(s).to_str().unwrap()`
is modelled as UTF-8 decoding of the NUL-terminated read: `some s` is the
returned string slice, `none` marks the `unwrap` panic on invalid UTF-8. -/
def MrValue'.to_str {α : Type} (m : Interp α) (v : MrValue') : Except MrubyError (Option (List Char)) :=
  match v.typ with
  | .MRB_TT_STRING => .ok (utf8Decode (mrb_str_to_cstr m v))
  | .MRB_TT_SYMBOL => .ok (utf8Decode (mrb_ext_sym2name m v))
  | _ => .error (.Cast "String")

/-- `MrValue::to_obj` from the source: on a Data value, read the stored
pointer, transmute it back to an `Rc` (no count change), return `rc.clone()` —
incrementing the count — and `mem::forget` the transmuted handle, so the
stored count is never decremented.  The returned owning handle is modelled by
the address of the shared cell it owns. -/
def MrValue'.to_obj {α : Type} (m : Interp α) (v : MrValue') : Interp α × Except MrubyError Nat :=
  match v.typ with
  | .MRB_TT_DATA =>
    let ptr := mrb_data_get_ptr m v
    (rcClone m ptr, .ok ptr)
  | _ => (m, .error (.Cast "Data(Rust Rc<RefCell<T>>)"))

/-- `MrValue::to_vec` from the source: on Array, query the length, then read
indices `0..len` in order. -/
def MrValue'.to_vec {α : Type} (m : Interp α) (v : MrValue') : Except MrubyError (List MrValue') :=
  match v.typ with
  | .MRB_TT_ARRAY =>
    .ok ((List.range (mrb_ext_ary_len m v).toNat).map (fun (i : Nat) => mrb_ary_ref m v (i : Int)))
  | _ => .error (.Cast "Array")

/-- `MrValue::to_class` from the source. -/
def MrValue'.to_class (v : MrValue') : Except MrubyError Nat :=
  match v.typ with
  | .MRB_TT_CLASS => .ok (mrb_ext_class_ptr v)
  | _ => .error (.Cast "Class")

/-- `MrValue::to_module` from the source. -/
def MrValue'.to_module (v : MrValue') : Except MrubyError Nat :=
  match v.typ with
  | .MRB_TT_MODULE => .ok (mrb_ext_class_ptr v)
  | _ => .error (.Cast "Module")

/-- `MrValue::to_ptr` from the source. -/
def MrValue'.to_ptr (v : MrValue') : Except MrubyError Nat :=
  match v.typ with
  | .MRB_TT_CPTR => .ok (mrb_ext_get_ptr v)
  | _ => .error (.Cast "Pointer")

/-! ### Iterated retrieval and release, for the ownership-bridge claims -/

/-- Apply `to_obj` to the same value `n` times in sequence, collecting every
returned result. -/
def toObjTrace {α : Type} : Nat → Interp α → MrValue' → Interp α × List (Except MrubyError Nat)
  | 0, m, _ => (m, [])
  | n + 1, m, v =>
    let p := MrValue'.to_obj m v
    let q := toObjTrace n p.1 v
    (q.1, p.2 :: q.2)

/-- Drop `n` owning handles to the same cell in sequence. -/
def rcDropN {α : Type} : Nat → Interp α → Nat → Interp α
  | 0, m, _ => m
  | n + 1, m, ptr => rcDropN n (rcDrop m ptr) ptr

/-- Decidable equality for `Except` results, used by `decide`-evaluated
witnesses and counterexamples. -/
instance {e a : Type} [DecidableEq e] [DecidableEq a] : DecidableEq (Except e a) := fun x y =>
  match x, y with
  | .ok u, .ok v => if h : u = v then .isTrue (by rw [h]) else .isFalse (by intro hc; cases hc; exact h rfl)
  | .error u, .error v => if h : u = v then .isTrue (by rw [h]) else .isFalse (by intro hc; cases hc; exact h rfl)
  | .ok _, .error _ => .isFalse (by intro hc; cases hc)
  | .error _, .ok _ => .isFalse (by intro hc; cases hc)

/-! ### Helper lemmas: discriminant-mismatch behaviour of each converter -/

theorem to_bool_mismatch (v : MrValue') (h1 : v.typ ≠ .MRB_TT_TRUE)
    (h2 : v.typ ≠ .MRB_TT_FALSE) :
    MrValue'.to_bool v = .error (.Cast "TrueClass or FalseClass") := by
  cases v <;> simp_all [MrValue'.to_bool, MrValue'.typ, mrb_ext_type]

theorem to_i32_mismatch (v : MrValue') (h : v.typ ≠ .MRB_TT_FIXNUM) :
    MrValue'.to_i32 v = .error (.Cast "Fixnum") := by
  cases v <;> simp_all [MrValue'.to_i32, MrValue'.typ, mrb_ext_type]

theorem to_f64_mismatch (v : MrValue') (h : v.typ ≠ .MRB_TT_FLOAT) :
    MrValue'.to_f64 v = .error (.Cast "Float") := by
  cases v <;> simp_all [MrValue'.to_f64, MrValue'.typ, mrb_ext_type]

theorem to_str_mismatch {α : Type} (m : Interp α) (v : MrValue')
    (h1 : v.typ ≠ .MRB_TT_STRING) (h2 : v.typ ≠ .MRB_TT_SYMBOL) :
    MrValue'.to_str m v = .error (.Cast "String") := by
  cases v <;> simp_all [MrValue'.to_str, MrValue'.typ, mrb_ext_type]

theorem to_obj_mismatch {α : Type} (m : Interp α) (v : MrValue')
    (h : v.typ ≠ .MRB_TT_DATA) :
    MrValue'.to_obj m v = (m, .error (.Cast "Data(Rust Rc<RefCell<T>>)")) := by
  cases v <;> simp_all [MrValue'.to_obj, MrValue'.typ, mrb_ext_type]

theorem to_vec_mismatch {α : Type} (m : Interp α) (v : MrValue')
    (h : v.typ ≠ .MRB_TT_ARRAY) :
    MrValue'.to_vec m v = .error (.Cast "Array") := by
  cases v <;> simp_all [MrValue'.to_vec, MrValue'.typ, mrb_ext_type]

theorem to_class_mismatch (v : MrValue') (h : v.typ ≠ .MRB_TT_CLASS) :
    MrValue'.to_class v = .error (.Cast "Class") := by
  cases v <;> simp_all [MrValue'.to_class, MrValue'.typ, mrb_ext_type]

theorem to_module_mismatch (v : MrValue') (h : v.typ ≠ .MRB_TT_MODULE) :
    MrValue'.to_module v = .error (.Cast "Module") := by
  cases v <;> simp_all [MrValue'.to_module, MrValue'.typ, mrb_ext_type]

theorem to_ptr_mismatch (v : MrValue') (h : v.typ ≠ .MRB_TT_CPTR) :
    MrValue'.to_ptr v = .error (.Cast "Pointer") := by
  cases v <;> simp_all [MrValue'.to_ptr, MrValue'.typ, mrb_ext_type]

/-! ### Claim theorems -/

/-- C3: every inbound converter applied to a value whose discriminant does not
match the variant it expects fails with a Cast error whose payload is a fixed
string naming the expected variant — the same string for every mismatching
value, hence never naming the actual variant — and in particular
`to_i32(nil())`, `to_bool(fixnum(0))`, `to_str(bool(true))` and
`to_vec(float(instance, 1.0))` (1.0 has bit pattern 4607182418800017408) all
fail with a Cast error naming the attempted target type. -/
theorem c3_cross_variant_cast_errors :
    (∀ v : MrValue', v.typ ≠ .MRB_TT_TRUE → v.typ ≠ .MRB_TT_FALSE →
      MrValue'.to_bool v = .error (.Cast "TrueClass or FalseClass")) ∧
    (∀ v : MrValue', v.typ ≠ .MRB_TT_FIXNUM →
      MrValue'.to_i32 v = .error (.Cast "Fixnum")) ∧
    (∀ v : MrValue', v.typ ≠ .MRB_TT_FLOAT →
      MrValue'.to_f64 v = .error (.Cast "Float")) ∧
    (∀ (α : Type) (m : Interp α) (v : MrValue'),
      v.typ ≠ .MRB_TT_STRING → v.typ ≠ .MRB_TT_SYMBOL →
      MrValue'.to_str m v = .error (.Cast "String")) ∧
    (∀ (α : Type) (m : Interp α) (v : MrValue'), v.typ ≠ .MRB_TT_DATA →
      MrValue'.to_obj m v = (m, .error (.Cast "Data(Rust Rc<RefCell<T>>)"))) ∧
    (∀ (α : Type) (m : Interp α) (v : MrValue'), v.typ ≠ .MRB_TT_ARRAY →
      MrValue'.to_vec m v = .error (.Cast "Array")) ∧
    (∀ v : MrValue', v.typ ≠ .MRB_TT_CLASS →
      MrValue'.to_class v = .error (.Cast "Class")) ∧
    (∀ v : MrValue', v.typ ≠ .MRB_TT_MODULE →
      MrValue'.to_module v = .error (.Cast "Module")) ∧
    (∀ v : MrValue', v.typ ≠ .MRB_TT_CPTR →
      MrValue'.to_ptr v = .error (.Cast "Pointer")) ∧
    MrValue'.to_i32 MrValue'.nil = .error (.Cast "Fixnum") ∧
    MrValue'.to_bool (MrValue'.fixnum 0) = .error (.Cast "TrueClass or FalseClass") ∧
    (∀ (α : Type) (m : Interp α),
      MrValue'.to_str m (MrValue'.bool true) = .error (.Cast "String")) ∧
    (∀ (α : Type) (m : Interp α),
      MrValue'.to_vec (MrValue'.float m 4607182418800017408).1
        (MrValue'.float m 4607182418800017408).2 = .error (.Cast "Array")) := by
  refine ⟨to_bool_mismatch, to_i32_mismatch, to_f64_mismatch,
    fun α m v h1 h2 => to_str_mismatch m v h1 h2,
    fun α m v h => to_obj_mismatch m v h,
    fun α m v h => to_vec_mismatch m v h,
    to_class_mismatch, to_module_mismatch, to_ptr_mismatch,
    rfl, rfl, fun α m => rfl, fun α m => rfl⟩

/-- Witness for C3 at concrete inputs: `to_f64` on a Fixnum value and `to_ptr`
on nil fail with the fixed expected-variant Cast errors. -/
theorem c3_cross_variant_cast_errors_witness :
    MrValue'.to_f64 (.fixnumV 3) = .error (.Cast "Float") ∧
    MrValue'.to_ptr .nilV = .error (.Cast "Pointer") :=
  ⟨c3_cross_variant_cast_errors.2.2.1 (.fixnumV 3) (by decide),
   c3_cross_variant_cast_errors.2.2.2.2.2.2.2.2.1 .nilV (by decide)⟩

/-- C6: `to_bool` returns `Ok true` on the True variant and `Ok false` on the
False variant, fails with a Cast error on every other variant — Nil included —
and satisfies `to_bool(bool(b)) = Ok b` for both booleans. -/
theorem c6_to_bool_exact :
    MrValue'.to_bool .trueV = .ok true ∧
    MrValue'.to_bool .falseV = .ok false ∧
    (∀ b : Bool, MrValue'.to_bool (MrValue'.bool b) = .ok b) ∧
    (∀ v : MrValue', v.typ ≠ .MRB_TT_TRUE → v.typ ≠ .MRB_TT_FALSE →
      MrValue'.to_bool v = .error (.Cast "TrueClass or FalseClass")) ∧
    MrValue'.to_bool MrValue'.nil = .error (.Cast "TrueClass or FalseClass") := by
  refine ⟨rfl, rfl, fun b => ?_, to_bool_mismatch, rfl⟩
  cases b <;> rfl

/-- Witness for C6 at a concrete input: `to_bool` on a Fixnum value fails with
the Cast error. -/
theorem c6_to_bool_exact_witness :
    MrValue'.to_bool (.fixnumV 0) = .error (.Cast "TrueClass or FalseClass") :=
  c6_to_bool_exact.2.2.2.1 (.fixnumV 0) (by decide) (by decide)

/-- C7: for every integer in the signed 32-bit range,
`to_i32 (fixnum i) = Ok i`; `fixnum` is a pure encoding — it takes no
interpreter instance and returns a plain value, not a fallible result (visible
in its type). -/
theorem c7_fixnum_round_trip (i : Int) (h1 : -2147483648 ≤ i) (h2 : i < 2147483648) :
    MrValue'.to_i32 (MrValue'.fixnum i) = .ok i := by
  show Except.ok (i64_as_i32 i) = Except.ok i
  unfold i64_as_i32
  split <;> [skip; skip] <;> congr 1 <;> omega

/-- Witness for C7 at concrete inputs 3 and -7. -/
theorem c7_fixnum_round_trip_witness :
    MrValue'.to_i32 (MrValue'.fixnum 3) = .ok 3 ∧
    MrValue'.to_i32 (MrValue'.fixnum (-7)) = .ok (-7) :=
  ⟨c7_fixnum_round_trip 3 (by decide) (by decide),
   c7_fixnum_round_trip (-7) (by decide) (by decide)⟩

/-- C8: on a Fixnum value whose interpreter-native `i64` payload is `n`,
`to_i32` returns `Ok` of `n` truncated to 32 bits with two's-complement wrap —
`n` modulo `2^32` reinterpreted as signed, written here as
`(n + 2^31) % 2^32 - 2^31` — never an error; the concrete conjuncts show the
wrap (`2^31` maps to `-2^31` and `2^32 + 7` to `7`), not saturation. -/
theorem c8_to_i32_lossy_narrowing :
    (∀ n : Int, MrValue'.to_i32 (mrb_ext_cint_to_fixnum n)
      = .ok ((n + 2147483648) % 4294967296 - 2147483648)) ∧
    MrValue'.to_i32 (mrb_ext_cint_to_fixnum 2147483648) = .ok (-2147483648) ∧
    MrValue'.to_i32 (mrb_ext_cint_to_fixnum 4294967303) = .ok 7 := by
  refine ⟨fun n => ?_, by decide, by decide⟩
  show Except.ok (i64_as_i32 n) = _
  unfold i64_as_i32
  split <;> congr 1 <;> omega

/-- C9: `to_f64` recovers from `float(instance, f)` exactly the 64-bit pattern
that was stored (bit-identical recovery, which implies IEEE equality for every
finite float), and succeeds only for the Float variant. -/
theorem c9_float_round_trip :
    (∀ (α : Type) (m : Interp α) (bits : Nat),
      MrValue'.to_f64 (MrValue'.float m bits).2 = .ok bits) ∧
    (∀ v : MrValue', v.typ ≠ .MRB_TT_FLOAT →
      MrValue'.to_f64 v = .error (.Cast "Float")) :=
  ⟨fun α m bits => rfl, to_f64_mismatch⟩

/-- Witness for C9 at concrete inputs: the bit pattern of 1.0 round-trips
through `float` on the empty interpreter, and `to_f64` on nil fails. -/
theorem c9_float_round_trip_witness :
    MrValue'.to_f64 (MrValue'.float interpNat0 4607182418800017408).2
      = .ok 4607182418800017408 ∧
    MrValue'.to_f64 .nilV = .error (.Cast "Float") :=
  ⟨c9_float_round_trip.1 Nat interpNat0 4607182418800017408,
   c9_float_round_trip.2 .nilV (by decide)⟩

/-! ### Helper lemmas: UTF-8 round trip -/

theorem char_toNat_valid (c : Char) :
    c.toNat < 55296 ∨ (57344 ≤ c.toNat ∧ c.toNat < 1114112) := by
  have h := c.valid
  unfold Char.toNat
  rcases h with h | ⟨h1, h2⟩
  · left
    exact h
  · right
    exact ⟨by omega, h2⟩

theorem utf8EncodeChar_ne_nil (c : Char) : utf8EncodeChar c ≠ [] := by
  simp only [utf8EncodeChar]
  split_ifs <;> simp

theorem utf8DecodeChar_encode (c : Char) (rest : List Nat) :
    utf8DecodeChar (utf8EncodeChar c ++ rest) = some (c, rest) := by
  have hv := char_toNat_valid c
  by_cases h1 : c.toNat < 128
  · simp only [utf8EncodeChar, if_pos h1, List.cons_append, List.nil_append]
    simp only [utf8DecodeChar, if_pos h1, Char.ofNat_toNat]
  · by_cases h2 : c.toNat < 2048
    · simp only [utf8EncodeChar, if_neg h1, if_pos h2, List.cons_append, List.nil_append]
      simp only [utf8DecodeChar, if_neg (by omega : ¬ 192 + c.toNat / 64 < 128),
        if_neg (by omega : ¬ 192 + c.toNat / 64 < 194),
        if_pos (by omega : 192 + c.toNat / 64 < 224),
        if_pos (by omega : 128 ≤ 128 + c.toNat % 64 ∧ 128 + c.toNat % 64 < 192)]
      have hx : (192 + c.toNat / 64 - 192) * 64 + (128 + c.toNat % 64 - 128) = c.toNat := by
        omega
      rw [hx, Char.ofNat_toNat]
    · by_cases h3 : c.toNat < 65536
      · simp only [utf8EncodeChar, if_neg h1, if_neg h2, if_pos h3, List.cons_append,
          List.nil_append]
        simp only [utf8DecodeChar, if_neg (by omega : ¬ 224 + c.toNat / 4096 < 128),
          if_neg (by omega : ¬ 224 + c.toNat / 4096 < 194),
          if_neg (by omega : ¬ 224 + c.toNat / 4096 < 224),
          if_pos (by omega : 224 + c.toNat / 4096 < 240),
          if_pos (by omega :
            (128 ≤ 128 + c.toNat / 64 % 64 ∧ 128 + c.toNat / 64 % 64 < 192) ∧
            (128 ≤ 128 + c.toNat % 64 ∧ 128 + c.toNat % 64 < 192))]
        have hx : (224 + c.toNat / 4096 - 224) * 4096 + (128 + c.toNat / 64 % 64 - 128) * 64 +
            (128 + c.toNat % 64 - 128) = c.toNat := by omega
        rw [if_pos (by omega)]
        rw [hx, Char.ofNat_toNat]
      · simp only [utf8EncodeChar, if_neg h1, if_neg h2, if_neg h3, List.cons_append,
          List.nil_append]
        simp only [utf8DecodeChar, if_neg (by omega : ¬ 240 + c.toNat / 262144 < 128),
          if_neg (by omega : ¬ 240 + c.toNat / 262144 < 194),
          if_neg (by omega : ¬ 240 + c.toNat / 262144 < 224),
          if_neg (by omega : ¬ 240 + c.toNat / 262144 < 240),
          if_pos (by omega : 240 + c.toNat / 262144 < 245),
          if_pos (by omega :
            (128 ≤ 128 + c.toNat / 4096 % 64 ∧ 128 + c.toNat / 4096 % 64 < 192) ∧
            (128 ≤ 128 + c.toNat / 64 % 64 ∧ 128 + c.toNat / 64 % 64 < 192) ∧
            (128 ≤ 128 + c.toNat % 64 ∧ 128 + c.toNat % 64 < 192))]
        have hx : (240 + c.toNat / 262144 - 240) * 262144 +
            (128 + c.toNat / 4096 % 64 - 128) * 4096 + (128 + c.toNat / 64 % 64 - 128) * 64 +
            (128 + c.toNat % 64 - 128) = c.toNat := by omega
        rw [if_pos (by omega)]
        rw [hx, Char.ofNat_toNat]

theorem utf8Encode_cons (c : Char) (s : List Char) :
    utf8Encode (c :: s) = utf8EncodeChar c ++ utf8Encode s := by
  simp [utf8Encode]

theorem utf8DecodeAux_encode (s : List Char) (fuel : Nat)
    (hf : (utf8Encode s).length ≤ fuel) :
    utf8DecodeAux fuel (utf8Encode s) = some s := by
  induction s generalizing fuel with
  | nil => cases fuel <;> rfl
  | cons c cs ih =>
    obtain ⟨b, t, hbt⟩ : ∃ b t, utf8EncodeChar c = b :: t := by
      cases h : utf8EncodeChar c with
      | nil => exact absurd h (utf8EncodeChar_ne_nil c)
      | cons b t => exact ⟨b, t, rfl⟩
    rw [utf8Encode_cons] at hf ⊢
    cases fuel with
    | zero =>
      exfalso
      rw [hbt] at hf
      simp at hf
    | succ f =>
      have hdec := utf8DecodeChar_encode c (utf8Encode cs)
      rw [hbt, List.cons_append] at hdec ⊢
      simp only [utf8DecodeAux, hdec]
      have hlen : (utf8Encode cs).length ≤ f := by
        rw [hbt] at hf
        simp only [List.cons_append, List.length_cons, List.length_append] at hf
        omega
      rw [ih f hlen]
      rfl

theorem utf8Decode_encode (s : List Char) : utf8Decode (utf8Encode s) = some s :=
  utf8DecodeAux_encode s _ le_rfl

theorem zero_not_mem_utf8EncodeChar (c : Char) (hc : c.toNat ≠ 0) :
    (0 : Nat) ∉ utf8EncodeChar c := by
  simp only [utf8EncodeChar]
  split_ifs <;> simp <;> omega

theorem zero_not_mem_utf8Encode (s : List Char) (h : ∀ c ∈ s, c ≠ Char.ofNat 0) :
    (0 : Nat) ∉ utf8Encode s := by
  induction s with
  | nil => simp [utf8Encode]
  | cons c cs ih =>
    rw [utf8Encode_cons]
    simp only [List.mem_append, not_or]
    constructor
    · refine zero_not_mem_utf8EncodeChar c (fun h0 => ?_)
      have hc : c = Char.ofNat 0 := by
        rw [← Char.ofNat_toNat c, h0]
      exact h c (List.mem_cons_self c cs) hc
    · exact ih (fun c' hc' => h c' (List.mem_cons_of_mem _ hc'))

theorem takeWhile_ne_zero (l : List Nat) (h : (0 : Nat) ∉ l) :
    l.takeWhile (fun b => b != 0) = l := by
  induction l with
  | nil => rfl
  | cons x xs ih =>
    simp only [List.mem_cons, not_or] at h
    rw [List.takeWhile_cons, if_pos (by simpa [bne_iff_ne] using fun hx => h.1 hx.symm)]
    rw [ih h.2]

theorem takeWhile_append_nul (pre post : List Nat) (h : (0 : Nat) ∉ pre) :
    (pre ++ 0 :: post).takeWhile (fun b => b != 0) = pre := by
  induction pre with
  | nil => simp [List.takeWhile_cons]
  | cons x xs ih =>
    simp only [List.mem_cons, not_or] at h
    rw [List.cons_append, List.takeWhile_cons,
      if_pos (by simpa [bne_iff_ne] using fun hx => h.1 hx.symm)]
    rw [ih h.2]

/-! ### Helper lemmas: heap lookups -/

theorem getD_concat {β : Type} (l : List β) (x : β) (d : β) :
    (l ++ [x]).getD l.length d = x := by
  rw [List.getD_eq_getElem?_getD, List.getElem?_concat_length]
  rfl

theorem symLookup_getD (l : List (List Nat)) (b : List Nat) (i : Nat)
    (h : symLookup l b = some i) : l.getD i [] = b := by
  induction l generalizing i with
  | nil => simp [symLookup] at h
  | cons x xs ih =>
    by_cases hx : x = b
    · unfold symLookup at h
      rw [if_pos hx] at h
      injection h with h'
      subst h'
      exact hx
    · unfold symLookup at h
      rw [if_neg hx] at h
      cases hxs : symLookup xs b with
      | none =>
        rw [hxs] at h
        simp at h
      | some j =>
        rw [hxs] at h
        simp only [Option.map_some'] at h
        injection h with h'
        subst h'
        simpa using ih j hxs

/-- C4 (amended): for every string `s` that contains no NUL character,
`to_str(string(instance, s)) = Ok(s)` and `to_str(symbol(instance, s)) = Ok(s)`
(the `some` wrapping records that the conversion did not hit the
invalid-UTF-8 panic), and `to_str` fails with a Cast error exactly on the
variants other than String and Symbol.  The NUL restriction is forced by the
NUL-terminated C-string read of the source's `to_str` (see the
counterexample). -/
theorem c4_str_sym_round_trip (α : Type) (m : Interp α) (s : List Char)
    (h : ∀ c ∈ s, c ≠ Char.ofNat 0) :
    MrValue'.to_str (MrValue'.string m s).1 (MrValue'.string m s).2 = .ok (some s) ∧
    MrValue'.to_str (MrValue'.symbol m s).1 (MrValue'.symbol m s).2 = .ok (some s) ∧
    (∀ v : MrValue', v.typ ≠ .MRB_TT_STRING → v.typ ≠ .MRB_TT_SYMBOL →
      MrValue'.to_str m v = .error (.Cast "String")) := by
  have hz := zero_not_mem_utf8Encode s h
  refine ⟨?_, ?_, to_str_mismatch m⟩
  · simp only [MrValue'.string, mrb_str_new, MrValue'.to_str, MrValue'.typ, mrb_ext_type,
      mrb_str_to_cstr]
    rw [getD_concat, takeWhile_ne_zero _ hz, utf8Decode_encode]
  · simp only [MrValue'.symbol, mrb_ext_sym_new]
    cases hls : symLookup m.symbols (utf8Encode s) with
    | some i =>
      have hget := symLookup_getD _ _ i hls
      simp only [MrValue'.to_str, MrValue'.typ, mrb_ext_type, mrb_ext_sym2name]
      rw [hget, takeWhile_ne_zero _ hz, utf8Decode_encode]
    | none =>
      simp only [MrValue'.to_str, MrValue'.typ, mrb_ext_type, mrb_ext_sym2name]
      rw [getD_concat, takeWhile_ne_zero _ hz, utf8Decode_encode]

/-- Witness for C4 (amended) at the concrete string "ab" on the empty
interpreter. -/
theorem c4_str_sym_round_trip_witness :
    MrValue'.to_str (MrValue'.string interpNat0 ['a', 'b']).1
        (MrValue'.string interpNat0 ['a', 'b']).2 = .ok (some ['a', 'b']) ∧
    MrValue'.to_str (MrValue'.symbol interpNat0 ['a', 'b']).1
        (MrValue'.symbol interpNat0 ['a', 'b']).2 = .ok (some ['a', 'b']) :=
  ⟨(c4_str_sym_round_trip Nat interpNat0 ['a', 'b'] (by decide)).1,
   (c4_str_sym_round_trip Nat interpNat0 ['a', 'b'] (by decide)).2.1⟩

/-- C4 counterexample: the claim "for every UTF-8 string s,
`to_str(string(instance, s)) == Ok(s)`" fails at the concrete string
"a\x00b": the NUL-terminated C-string read of `to_str` stops at the embedded
NUL byte, so the round trip returns `Ok("a")`, not `Ok("a\x00b")`. -/
theorem c4_counterexample :
    MrValue'.to_str (MrValue'.string interpNat0 ['a', Char.ofNat 0, 'b']).1
        (MrValue'.string interpNat0 ['a', Char.ofNat 0, 'b']).2 = .ok (some ['a']) ∧
    MrValue'.to_str (MrValue'.string interpNat0 ['a', Char.ofNat 0, 'b']).1
        (MrValue'.string interpNat0 ['a', Char.ofNat 0, 'b']).2
      ≠ .ok (some ['a', Char.ofNat 0, 'b']) := by
  constructor
  · decide
  · decide

/-- C10: on a String- or Symbol-variant value `to_str` never returns an error
(its only error, the Cast failure, arises on discriminant mismatch alone); the
payload is read as a NUL-terminated C string, so content past an interior NUL
byte is not returned; and when the read bytes are not valid UTF-8 the `unwrap`
panics (modelled by `Ok none`) instead of returning a recoverable error. -/
theorem c10_to_str_nul_truncation_and_panic :
    (∀ (α : Type) (m : Interp α) (v : MrValue'),
      v.typ = .MRB_TT_STRING ∨ v.typ = .MRB_TT_SYMBOL →
      ∃ r, MrValue'.to_str m v = .ok r) ∧
    (∀ (α : Type) (m : Interp α) (i : Nat) (pre post : List Nat),
      m.strings.getD i [] = pre ++ 0 :: post → (0 : Nat) ∉ pre →
      MrValue'.to_str m (.stringV i) = .ok (utf8Decode pre)) ∧
    MrValue'.to_str { interpNat0 with strings := [[255]] } (.stringV 0) = .ok none ∧
    (∀ e : MrubyError,
      MrValue'.to_str { interpNat0 with strings := [[255]] } (.stringV 0) ≠ .error e) := by
  refine ⟨fun α m v hv => ?_, fun α m i pre post hpre hmem => ?_, by decide, ?_⟩
  · cases v <;> first
      | exact ⟨_, rfl⟩
      | simp_all [MrValue'.typ, mrb_ext_type]
  · simp only [MrValue'.to_str, MrValue'.typ, mrb_ext_type, mrb_str_to_cstr]
    rw [hpre, takeWhile_append_nul _ _ hmem]
  · intro e h
    have hok : MrValue'.to_str { interpNat0 with strings := [[255]] } (.stringV 0)
        = .ok (none : Option (List Char)) := by decide
    rw [hok] at h
    exact Except.noConfusion h

/-- Witness for C10: a stored byte sequence "a\x00b" read through `to_str`
yields only the part before the NUL, decoded. -/
theorem c10_to_str_nul_truncation_and_panic_witness :
    MrValue'.to_str { interpNat0 with strings := [[97, 0, 98]] } (.stringV 0)
      = .ok (utf8Decode [97]) :=
  c10_to_str_nul_truncation_and_panic.2.1 Nat { interpNat0 with strings := [[97, 0, 98]] }
    0 [97] [98] (by decide) (by decide)

/-! ### Helper lemmas: array construction and inspection -/

theorem getD_set_self {β : Type} (l : List β) (i : Nat) (x d : β) (h : i < l.length) :
    (l.set i x).getD i d = x := by
  rw [List.getD_eq_getElem?_getD, List.getElem?_set_self h]
  rfl

theorem list_set_getD_self {β : Type} (l : List β) (i : Nat) (d : β) (h : i < l.length) :
    l.set i (l.getD i d) = l := by
  induction l generalizing i with
  | nil => simp at h
  | cons x xs ih =>
    cases i with
    | zero => rfl
    | succ j =>
      simp only [List.set, List.cons.injEq, true_and]
      exact ih j (by simpa using h)

theorem foldl_ary_set {α : Type} (ps : List (Nat × MrValue')) (m : Interp α) (idx : Nat)
    (hidx : idx < m.arrays.length) :
    ps.foldl (fun acc q => mrb_ary_set acc (.arrayV idx) (q.1 : Int) q.2) m
      = { m with arrays := m.arrays.set idx (ps.foldl (fun l q => arySetList l (q.1 : Int).toNat q.2) (m.arrays.getD idx [])) } := by
  induction ps generalizing m with
  | nil =>
    simp only [List.foldl_nil]
    rw [list_set_getD_self _ _ _ hidx]
  | cons q ps ih =>
    simp only [List.foldl_cons]
    have hstep : mrb_ary_set m (.arrayV idx) (q.1 : Int) q.2
        = { m with arrays := m.arrays.set idx (arySetList (m.arrays.getD idx []) ((q.1 : Int)).toNat q.2) } := rfl
    rw [hstep]
    have ihm := ih
      { m with arrays := m.arrays.set idx (arySetList (m.arrays.getD idx []) ((q.1 : Int)).toNat q.2) }
      (by simpa using hidx)
    rw [ihm]
    simp only [List.set_set]
    rw [getD_set_self _ _ _ _ hidx]

theorem foldl_arySetList_enumFrom (v l : List MrValue') :
    (v.enumFrom l.length).foldl (fun acc q => arySetList acc ((q.1 : Int)).toNat q.2) l
      = l ++ v := by
  induction v generalizing l with
  | nil => simp
  | cons x xs ih =>
    rw [List.enumFrom_cons]
    simp only [List.foldl_cons]
    have h1 : arySetList l ((l.length : Int) : Int).toNat x = l ++ [x] := by
      simp only [arySetList, Int.toNat_natCast]
      rw [if_neg (by omega)]
      simp
    rw [h1]
    have h2 : l.length + 1 = (l ++ [x]).length := by simp
    rw [h2, ih (l ++ [x])]
    simp

theorem range_map_getD (l : List MrValue') :
    (List.range l.length).map (fun i => l.getD i .nilV) = l := by
  induction l with
  | nil => rfl
  | cons x xs ih =>
    rw [List.length_cons, List.range_succ_eq_map, List.map_cons, List.map_map]
    have hcomp : ((fun i => (x :: xs).getD i MrValue'.nilV) ∘ Nat.succ)
        = fun i => xs.getD i MrValue'.nilV := funext fun i => rfl
    rw [hcomp, ih]
    rfl

theorem array_builds {α : Type} (m : Interp α) (v : List MrValue') :
    (MrValue'.array m v).1.arrays.getD m.arrays.length [] = v := by
  simp only [MrValue'.array, mrb_ary_new_capa]
  rw [foldl_ary_set _ _ _ (by simp)]
  simp only [getD_concat]
  have henum : v.enum = v.enumFrom ([] : List MrValue').length := rfl
  rw [henum, foldl_arySetList_enumFrom]
  simp only [List.nil_append]
  exact getD_set_self _ _ _ _ (by simp)

theorem range_map_castD (l : List MrValue') :
    (List.range l.length).map (fun (i : Nat) => l.getD ((i : Int)).toNat .nilV) = l := by
  have h : (fun (i : Nat) => l.getD ((i : Int)).toNat MrValue'.nilV)
      = fun i => l.getD i MrValue'.nilV := funext fun i => by rw [Int.toNat_natCast]
  rw [h, range_map_getD]

theorem to_vec_reads {α : Type} (m : Interp α) (i : Nat) :
    MrValue'.to_vec m (.arrayV i) = .ok (m.arrays.getD i []) := by
  simp only [MrValue'.to_vec, MrValue'.typ, mrb_ext_type, mrb_ext_ary_len, mrb_ary_ref]
  rw [Int.toNat_natCast, range_map_castD]

/-- C2: the array round trip — `array(instance, v)` allocates a fresh
interpreter array whose stored contents equal `v` slot for slot in input
order, `to_vec(array(instance, v)) = Ok(v)`, and `to_vec` reads the array's
contents as they are in the state at inspection time (its result on an Array
value is always the currently stored list, whatever mutations happened since
allocation). -/
theorem c2_array_round_trip :
    (∀ (α : Type) (m : Interp α) (v : List MrValue'),
      MrValue'.to_vec (MrValue'.array m v).1 (MrValue'.array m v).2 = .ok v) ∧
    (∀ (α : Type) (m : Interp α) (v : List MrValue'),
      (MrValue'.array m v).2 = .arrayV m.arrays.length ∧
      (MrValue'.array m v).1.arrays.getD m.arrays.length [] = v) ∧
    (∀ (α : Type) (m : Interp α) (i : Nat),
      MrValue'.to_vec m (.arrayV i) = .ok (m.arrays.getD i [])) := by
  refine ⟨fun α m v => ?_, fun α m v => ⟨rfl, array_builds m v⟩, fun α m i => to_vec_reads m i⟩
  have h2 : (MrValue'.array m v).2 = .arrayV m.arrays.length := rfl
  rw [h2, to_vec_reads, array_builds]

/-! ### Helper lemmas: reference-counted cells -/

theorem getD_some_lt {α : Type} (l : List (Option (Nat × α))) (c : Nat) (p : Nat × α)
    (h : l.getD c none = some p) : c < l.length := by
  by_contra hc
  rw [List.getD_eq_getElem?_getD, List.getElem?_eq_none (by omega)] at h
  simp at h

theorem getD_set_ne {β : Type} (l : List β) (i j : Nat) (hij : i ≠ j) (a d : β) :
    (l.set i a).getD j d = l.getD j d := by
  rw [List.getD_eq_getElem?_getD, List.getElem?_set_ne hij, List.getD_eq_getElem?_getD]

theorem rcClone_at {α : Type} (m : Interp α) (c k : Nat) (x : α)
    (h : m.cells.getD c none = some (k, x)) :
    rcClone m c = { m with cells := m.cells.set c (some (k + 1, x)) } := by
  unfold rcClone
  rw [h]
  rfl

theorem to_obj_data {α : Type} (m : Interp α) (c : Nat) :
    MrValue'.to_obj m (.dataV c) = (rcClone m c, .ok c) := rfl

theorem toObjTrace_data {α : Type} (N : Nat) (m : Interp α) (c k : Nat) (x : α)
    (h : m.cells.getD c none = some (k, x)) :
    toObjTrace N m (.dataV c)
      = ({ m with cells := m.cells.set c (some (k + N, x)) }, List.replicate N (.ok c)) := by
  induction N generalizing m k with
  | zero =>
    simp only [toObjTrace, List.replicate]
    have hs : m.cells.set c (some (k + 0, x)) = m.cells := by
      rw [Nat.add_zero, ← h]
      exact list_set_getD_self _ _ _ (getD_some_lt _ _ _ h)
    rw [hs]
  | succ n ih =>
    have hlt := getD_some_lt _ _ _ h
    have hm' : MrValue'.to_obj m (.dataV c)
        = ({ m with cells := m.cells.set c (some (k + 1, x)) }, .ok c) := by
      rw [to_obj_data, rcClone_at m c k x h]
    simp only [toObjTrace]
    rw [hm']
    have hget : ({ m with cells := m.cells.set c (some (k + 1, x)) } : Interp α).cells.getD c none
        = some (k + 1, x) := getD_set_self _ _ _ _ hlt
    rw [ih _ _ hget]
    simp only [List.set_set]
    have harith : k + 1 + n = k + (n + 1) := by omega
    rw [harith, List.replicate_succ]

theorem rcDropN_at {α : Type} (n : Nat) (m : Interp α) (c j : Nat) (x : α)
    (h : m.cells.getD c none = some (n + j + 1, x)) :
    rcDropN n m c = { m with cells := m.cells.set c (some (j + 1, x)) } := by
  induction n generalizing m with
  | zero =>
    simp only [rcDropN]
    have h' : m.cells.getD c none = some (j + 1, x) := by simpa using h
    rw [← h', list_set_getD_self _ _ _ (getD_some_lt _ _ _ h')]
  | succ n ih =>
    simp only [rcDropN]
    have hlt := getD_some_lt _ _ _ h
    have hdrop : rcDrop m c = { m with cells := m.cells.set c (some (n + j + 1, x)) } := by
      simp only [rcDrop, h]
      rw [if_neg (by omega)]
      have : n + 1 + j + 1 - 1 = n + j + 1 := by omega
      rw [this]
    rw [hdrop]
    have hget : ({ m with cells := m.cells.set c (some (n + j + 1, x)) } : Interp α).cells.getD c none
        = some (n + j + 1, x) := getD_set_self _ _ _ _ hlt
    rw [ih _ hget]
    simp only [List.set_set]

theorem rcDrop_last {α : Type} (m : Interp α) (c : Nat) (x : α)
    (h : m.cells.getD c none = some (1, x)) :
    rcDrop m c = { m with cells := m.cells.set c none, frees := m.frees + 1 } := by
  simp only [rcDrop, h]
  rw [if_pos (by omega)]

/-- C1: the native-object round trip.  `obj` stores the payload in a fresh
shared cell with one implicit reference and returns a Data value holding that
cell's address; each of `N` successive `to_obj` calls returns `Ok` of that same
cell address (identity of storage) and after them the cell holds the payload
with reference count `N + 1`; dropping the `N` retrieved handles frees nothing
(count back to 1, free counter unchanged), and one invocation of the
deallocation callback then brings the count to zero, freeing the storage
exactly once (free counter up by exactly one, cell storage gone). -/
theorem c1_native_object_round_trip (α : Type) (m : Interp α) (x : α) (N : Nat) :
    (MrValue'.obj m x).2 = .dataV m.cells.length ∧
    (toObjTrace N (MrValue'.obj m x).1 (MrValue'.obj m x).2).2
      = List.replicate N (.ok m.cells.length) ∧
    (toObjTrace N (MrValue'.obj m x).1 (MrValue'.obj m x).2).1.cells.getD m.cells.length none
      = some (N + 1, x) ∧
    (rcDropN N (toObjTrace N (MrValue'.obj m x).1 (MrValue'.obj m x).2).1
        m.cells.length).cells.getD m.cells.length none = some (1, x) ∧
    (rcDropN N (toObjTrace N (MrValue'.obj m x).1 (MrValue'.obj m x).2).1
        m.cells.length).frees = m.frees ∧
    (mrDfree (rcDropN N (toObjTrace N (MrValue'.obj m x).1 (MrValue'.obj m x).2).1
        m.cells.length) m.cells.length).cells.getD m.cells.length none = none ∧
    (mrDfree (rcDropN N (toObjTrace N (MrValue'.obj m x).1 (MrValue'.obj m x).2).1
        m.cells.length) m.cells.length).frees = m.frees + 1 := by
  have hobj1 : (MrValue'.obj m x).1 = { m with cells := m.cells ++ [some (1, x)] } := rfl
  have hobj2 : (MrValue'.obj m x).2 = .dataV m.cells.length := rfl
  have hlen : m.cells.length < (m.cells ++ [some (1, x)]).length := by simp
  have h0 : ({ m with cells := m.cells ++ [some (1, x)] } : Interp α).cells.getD
      m.cells.length none = some (1, x) := getD_concat _ _ _
  have htr := toObjTrace_data N { m with cells := m.cells ++ [some (1, x)] }
    m.cells.length 1 x h0
  rw [hobj1, hobj2, htr]
  have h2get : ((m.cells ++ [some (1, x)]).set m.cells.length (some (1 + N, x))).getD
      m.cells.length none = some (1 + N, x) := getD_set_self _ _ _ _ hlen
  have h2get' : ({ m with cells := (m.cells ++ [some (1, x)]).set m.cells.length (some (1 + N, x)) } : Interp α).cells.getD m.cells.length none
      = some (N + 0 + 1, x) := by
    rw [h2get]
    congr 2
    omega
  have hdropN := rcDropN_at N { m with cells := (m.cells ++ [some (1, x)]).set m.cells.length (some (1 + N, x)) } m.cells.length 0 x h2get'
  rw [hdropN]
  have h3get : (((m.cells ++ [some (1, x)]).set m.cells.length (some (1 + N, x))).set
      m.cells.length (some (0 + 1, x))).getD m.cells.length none = some (0 + 1, x) := by
    refine getD_set_self _ _ _ _ ?_
    simpa using hlen
  have hlast := rcDrop_last { m with cells := ((m.cells ++ [some (1, x)]).set m.cells.length (some (1 + N, x))).set m.cells.length (some (0 + 1, x)) } m.cells.length x h3get
  refine ⟨rfl, rfl, ?_, ?_, rfl, ?_, ?_⟩
  · rw [h2get]
    congr 2
    omega
  · rw [h3get]
  · show (mrDfree _ _).cells.getD m.cells.length none = none
    rw [mrDfree, hlast]
    refine getD_set_self _ _ _ _ ?_
    simpa using hlen
  · show (mrDfree _ _).frees = m.frees + 1
    rw [mrDfree, hlast]

/-- C5 counterexample: the claim that a converter invocation "leaves all
program state, including the reference count of any embedded native-object
cell, unchanged" is false at a concrete input: after embedding the host value
42 in the empty interpreter, a single `to_obj` on the resulting Data value
changes the state — the cell's reference count goes from 1 to 2. -/
theorem c5_counterexample :
    (MrValue'.to_obj (MrValue'.obj interpNat0 42).1 (MrValue'.obj interpNat0 42).2).1
      ≠ (MrValue'.obj interpNat0 42).1 ∧
    (MrValue'.obj interpNat0 42).1.cells.getD 0 none = some (1, 42) ∧
    (MrValue'.to_obj (MrValue'.obj interpNat0 42).1
        (MrValue'.obj interpNat0 42).2).1.cells.getD 0 none = some (2, 42) := by
  refine ⟨by decide, by decide, by decide⟩

/-- C5 (amended): every inbound converter returns an equal result when
re-invoked on the same value (so re-attempts are free of surprises), and every
converter except `to_obj` is effect-free — `to_bool`, `to_i32`, `to_f64`,
`to_class`, `to_module`, `to_ptr` take no interpreter state at all, and
`to_str`/`to_vec` read the state without returning a modified one (visible in
their types) — but `to_obj` is not side-effect-free: on a Data value it
increments the target cell's reference count by exactly one per invocation,
leaving every other component of the state (strings, symbols, arrays, free
counter, other cells) unchanged, and on any other variant it leaves the state
untouched. -/
theorem c5_converters_repeatable (α : Type) (m : Interp α) (v : MrValue') :
    (MrValue'.to_obj (MrValue'.to_obj m v).1 v).2 = (MrValue'.to_obj m v).2 ∧
    ((MrValue'.to_obj m v).1.strings = m.strings ∧
     (MrValue'.to_obj m v).1.symbols = m.symbols ∧
     (MrValue'.to_obj m v).1.arrays = m.arrays ∧
     (MrValue'.to_obj m v).1.frees = m.frees ∧
     (MrValue'.to_obj m v).1.cells.length = m.cells.length) ∧
    (v.typ ≠ .MRB_TT_DATA → (MrValue'.to_obj m v).1 = m) ∧
    (∀ j, j ≠ mrb_data_get_ptr m v →
      (MrValue'.to_obj m v).1.cells.getD j none = m.cells.getD j none) ∧
    (∀ i k x, v = .dataV i → m.cells.getD i none = some (k, x) →
      (MrValue'.to_obj m v).1.cells.getD i none = some (k + 1, x)) := by
  by_cases hd : v.typ = .MRB_TT_DATA
  · obtain ⟨i, rfl⟩ : ∃ i, v = .dataV i := by
      cases v <;> simp_all [MrValue'.typ, mrb_ext_type] <;> exact ⟨_, rfl⟩
    refine ⟨rfl, ⟨rfl, rfl, rfl, rfl, ?_⟩, fun h => absurd rfl h, fun j hj => ?_, ?_⟩
    · show ((rcClone m i).cells).length = m.cells.length
      simp [rcClone]
    · show ((rcClone m i).cells).getD j none = m.cells.getD j none
      have hji : i ≠ j := fun h => hj h.symm
      simp only [rcClone]
      exact getD_set_ne _ _ _ hji _ _
    · intro i' k x hv h
      injection hv with hv'
      subst hv'
      show ((rcClone m i).cells).getD i none = some (k + 1, x)
      rw [rcClone_at m i k x h]
      exact getD_set_self _ _ _ _ (getD_some_lt _ _ _ h)
  · have he := to_obj_mismatch m v hd
    refine ⟨?_, ?_, fun _ => by rw [he], fun j hj => by rw [he], ?_⟩
    · have h1 : (MrValue'.to_obj m v).1 = m := by rw [he]
      rw [h1]
    · rw [he]
      exact ⟨rfl, rfl, rfl, rfl, rfl⟩
    · intro i k x hv h
      subst hv
      exact absurd rfl hd

/-- Witness for C5 (amended) at a concrete input: on an interpreter holding one
cell with count 1 and payload 5, `to_obj` of the Data value for that cell
leaves the free counter unchanged and bumps the cell's count to 2. -/
theorem c5_converters_repeatable_witness :
    (MrValue'.to_obj { interpNat0 with cells := [some (1, 5)] } (.dataV 0)).1.frees
      = (interpNat0 : Interp Nat).frees ∧
    (MrValue'.to_obj { interpNat0 with cells := [some (1, 5)] } (.dataV 0)).1.cells.getD 0 none
      = some (2, 5) :=
  ⟨(c5_converters_repeatable Nat { interpNat0 with cells := [some (1, 5)] } (.dataV 0)).2.1.2.2.2.1,
   (c5_converters_repeatable Nat { interpNat0 with cells := [some (1, 5)] }
      (.dataV 0)).2.2.2.2 0 1 5 rfl (by decide)⟩
